import Mathlib

/-
  A verification development for the FlowProxy HTTP/HTTPS debugging proxy.

  The definitions below are shallow embeddings of the TypeScript sources:
  JavaScript plain objects used as string maps become association lists with
  insert-or-replace semantics (`mapSet`), `delete obj[k]` becomes `mapDelete`,
  and property reads become `mapGet`.  Async handlers with effects are
  embedded as pure functions, with the effectful collaborators (upstream
  forwarding, component execution, condition evaluation, URL parsing,
  UTF-8 codecs) passed in as explicit function parameters.
-/

namespace FlowProxy

/-- Reading a property of a JS object used as a string-keyed map:
the first (and, for objects built with `mapSet`, only) binding wins. -/
def mapGet {β : Type} (m : List (String × β)) (k : String) : Option β :=
  (m.find? (fun kv => kv.1 == k)).map (fun kv => kv.2)

/-- `obj[k] = v` on a JS object: replaces the binding in place if the key is
present (JS objects keep the original insertion position), otherwise appends. -/
def mapSet {β : Type} (m : List (String × β)) (k : String) (v : β) : List (String × β) :=
  if m.any (fun kv => kv.1 == k) then
    m.map (fun kv => if kv.1 == k then (k, v) else kv)
  else
    m ++ [(k, v)]

/-- `delete obj[k]` on a JS object. -/
def mapDelete {β : Type} (m : List (String × β)) (k : String) : List (String × β) :=
  m.filter (fun kv => kv.1 != k)

/-- Is the first list a prefix of the second. -/
def listPrefix : List Char → List Char → Bool
  | [], _ => true
  | _ :: _, [] => false
  | a :: as, b :: bs => (a == b) && listPrefix as bs

def strIncludesAux (needle : List Char) : List Char → Bool
  | [] => needle.isEmpty
  | c :: rest => listPrefix needle (c :: rest) || strIncludesAux needle rest

/-- JS `String.prototype.includes` (substring test). -/
def strIncludes (s sub : String) : Bool := strIncludesAux sub.data s.data

/-- JS `String.prototype.startsWith`. -/
def strStartsWith (s p : String) : Bool := listPrefix p.data s.data

/-- JS `String.prototype.toLowerCase`, for the ASCII range. -/
def strToLower (s : String) : String := String.mk (s.data.map Char.toLower)

/-- `HttpRequest` from `src/shared/models.ts`, restricted to the fields the
engine reads (id, method, absolute url, headers, optional textual body). -/
structure HttpRequest where
  id : String
  method : String
  url : String
  headers : List (String × String)
  body : Option String := none
deriving Repr, DecidableEq

/-- `HttpResponse` from `src/shared/models.ts`. -/
structure HttpResponse where
  statusCode : Nat
  statusMessage : Option String := none
  headers : List (String × String) := []
  body : Option String := none
deriving Repr, DecidableEq

/-- `RequestRecord`: id, request, optional response, optional duration,
optional matched flow id. -/
structure RequestRecord where
  id : String
  request : HttpRequest
  response : Option HttpResponse := none
  durationMs : Option Nat := none
  matchedFlowId : Option String := none
deriving Repr, DecidableEq

/-- `MAX_RECORDS` in `src/main/store/requestStore.ts`. -/
def maxRecords : Nat := 2000

namespace RequestStore

/-- `RequestStore.add`.  The store keeps `records` (insertion order) plus a
map keyed by id; re-adding an existing id does `Object.assign(existing,
record)`.  Every caller passes the full (already updated) record object, so
the assign amounts to replacing the stored entry in place; a fresh id at
capacity first `shift`s the oldest entry off the front. -/
def add (records : List RequestRecord) (r : RequestRecord) : List RequestRecord :=
  if records.any (fun x => x.id == r.id) then
    records.map (fun x => if x.id == r.id then r else x)
  else if maxRecords ≤ records.length then
    records.tail ++ [r]
  else
    records ++ [r]

/-- `RequestStore.getById` (the record-map lookup). -/
def getById (records : List RequestRecord) (id : String) : Option RequestRecord :=
  records.find? (fun x => x.id == id)

/-- `RequestStore.getCount`. -/
def getCount (records : List RequestRecord) : Nat := records.length

end RequestStore

lemma requestStore_add_length_le (records : List RequestRecord) (r : RequestRecord)
    (h : records.length ≤ maxRecords) : (RequestStore.add records r).length ≤ maxRecords := by
  unfold RequestStore.add
  split
  · simpa using h
  · split
    · rename_i hcap
      simp only [List.length_append, List.length_tail, List.length_singleton]
      simp only [maxRecords] at h hcap ⊢
      omega
    · rename_i hcap
      simp only [List.length_append, List.length_singleton]
      simp only [maxRecords] at h hcap ⊢
      omega

lemma requestStore_map_id_of_mem (records : List RequestRecord) (r : RequestRecord) :
    (records.map (fun x => if x.id == r.id then r else x)).map (fun x => x.id)
      = records.map (fun x => x.id) := by
  rw [List.map_map]
  apply List.map_congr_left
  intro a _
  by_cases h : a.id = r.id <;> simp [h]

lemma requestStore_getById_of_mem (records : List RequestRecord) (r : RequestRecord)
    (h : records.any (fun x => x.id == r.id) = true) :
    RequestStore.getById (records.map (fun x => if x.id == r.id then r else x)) r.id
      = some r := by
  induction records with
  | nil => simp at h
  | cons x xs ih =>
    by_cases hx : x.id = r.id
    · simp [RequestStore.getById, hx]
    · have h' : xs.any (fun x => x.id == r.id) = true := by
        simp only [List.any_cons, Bool.or_eq_true, beq_iff_eq] at h
        rcases h with h | h
        · exact absurd h hx
        · simpa using h
      have := ih h'
      simpa [RequestStore.getById, hx] using this

/-- C4: the Recorder holds at most its capacity of 2,000 entries after every
sequence of `add` operations; a fresh id at capacity evicts the oldest entry
(the head of the insertion-ordered list) and appends the new record; and
adding a record whose id already exists updates that entry in place, with no
eviction and no reordering (the id sequence is unchanged and lookup by the id
yields the new record). -/
theorem recorder_bounded_oldest_first_update_in_place :
    (∀ ops : List RequestRecord, (ops.foldl RequestStore.add []).length ≤ maxRecords)
    ∧ (∀ records r, records.length = maxRecords →
        records.any (fun x => x.id == r.id) = false →
        RequestStore.add records r = records.tail ++ [r])
    ∧ (∀ records r, records.any (fun x => x.id == r.id) = true →
        ((RequestStore.add records r).map (fun x => x.id) = records.map (fun x => x.id)
          ∧ RequestStore.getById (RequestStore.add records r) r.id = some r)) := by
  refine ⟨?_, ?_, ?_⟩
  · intro ops
    have hgen : ∀ (ops : List RequestRecord) (st : List RequestRecord),
        st.length ≤ maxRecords → (ops.foldl RequestStore.add st).length ≤ maxRecords := by
      intro ops
      induction ops with
      | nil => intro st h; simpa using h
      | cons r rest ih =>
        intro st h
        exact ih _ (requestStore_add_length_le st r h)
    exact hgen ops [] (by simp [maxRecords])
  · intro records r hlen hany
    unfold RequestStore.add
    simp [hany, hlen]
  · intro records r hany
    constructor
    · unfold RequestStore.add
      simp only [hany, if_true]
      exact requestStore_map_id_of_mem records r
    · unfold RequestStore.add
      simp only [hany, if_true]
      exact requestStore_getById_of_mem records r hany

lemma list_any_replicate_false {α : Type} (n : Nat) (a : α) (p : α → Bool)
    (h : p a = false) : (List.replicate n a).any p = false := by
  induction n with
  | zero => rfl
  | succ n ih => simp [List.replicate, h, ih]

/-- Witness for the capacity/eviction/update theorem at concrete inputs:
a store of 2,000 records with id "a", then a fresh record with id "b"
(eviction branch) and an update of id "a" (in-place branch). -/
theorem recorder_bounded_oldest_first_update_witness :
    ((List.replicate maxRecords
        ({ id := "a", request := { id := "a", method := "GET", url := "http://h/", headers := [] } } : RequestRecord)).length = maxRecords
      ∧ (List.replicate maxRecords
          ({ id := "a", request := { id := "a", method := "GET", url := "http://h/", headers := [] } } : RequestRecord)).any
            (fun x => x.id == "b") = false
      ∧ RequestStore.add
          (List.replicate maxRecords
            ({ id := "a", request := { id := "a", method := "GET", url := "http://h/", headers := [] } } : RequestRecord))
          ({ id := "b", request := { id := "b", method := "GET", url := "http://h/", headers := [] } } : RequestRecord)
        = (List.replicate maxRecords
            ({ id := "a", request := { id := "a", method := "GET", url := "http://h/", headers := [] } } : RequestRecord)).tail
          ++ [({ id := "b", request := { id := "b", method := "GET", url := "http://h/", headers := [] } } : RequestRecord)])
    ∧ ([({ id := "a", request := { id := "a", method := "GET", url := "http://h/", headers := [] } } : RequestRecord)].any
          (fun x => x.id == "a") = true
      ∧ RequestStore.getById
          (RequestStore.add
            [({ id := "a", request := { id := "a", method := "GET", url := "http://h/", headers := [] } } : RequestRecord)]
            ({ id := "a", request := { id := "a", method := "GET", url := "http://h/", headers := [] },
               durationMs := some 5 } : RequestRecord))
          "a"
        = some ({ id := "a", request := { id := "a", method := "GET", url := "http://h/", headers := [] },
                  durationMs := some 5 } : RequestRecord)) := by
  have h1 : (List.replicate maxRecords
      ({ id := "a", request := { id := "a", method := "GET", url := "http://h/", headers := [] } } : RequestRecord)).length = maxRecords := by
    simp
  have h2 : (List.replicate maxRecords
      ({ id := "a", request := { id := "a", method := "GET", url := "http://h/", headers := [] } } : RequestRecord)).any
        (fun x => x.id == "b") = false :=
    list_any_replicate_false _ _ _ (by decide)
  have h3 : ([({ id := "a", request := { id := "a", method := "GET", url := "http://h/", headers := [] } } : RequestRecord)].any
      (fun x => x.id == "a") = true) := by decide
  refine ⟨⟨h1, h2, ?_⟩, h3, ?_⟩
  · exact recorder_bounded_oldest_first_update_in_place.2.1 _ _ h1 h2
  · exact (recorder_bounded_oldest_first_update_in_place.2.2 _ _ h3).2

/-! ## Flow matching: wildcard globs and Entry rules (`FlowEngine` in
`src/main/flow/flowEngine.ts`) -/

/-- The semantics of `FlowEngine.matchWildcard`.  The source builds a regex by
escaping the regex metacharacters `.+^${}()|[]\`, replacing `*` with `.*` and
`?` with `.`, anchoring with `^...$` and matching with the `i` flag; this
function is that regex's denotation on character lists (pattern first):
literal characters compare after ASCII lower-casing (the `i` flag), `*`
consumes any sequence of characters and `?` consumes exactly one.  (`.` in the
built regex excludes line terminators, which cannot occur in the URL hostnames
and pathnames this matcher is applied to, so `?`/`*` are modelled as matching
arbitrary characters.) -/
def wildMatch : List Char → List Char → Bool
  | [], s => s.isEmpty
  | c :: p, s =>
    if c = '*' then
      wildMatch p s ||
        (match s with
          | [] => false
          | _ :: s' => wildMatch (c :: p) s')
    else if c = '?' then
      (match s with
        | [] => false
        | _ :: s' => wildMatch p s')
    else
      (match s with
        | [] => false
        | d :: s' => (c.toLower == d.toLower) && wildMatch p s')
termination_by p s => p.length + s.length
decreasing_by all_goals simp_wf <;> omega

/-- `FlowEngine.matchWildcard(str, pattern)`: the pattern `*` alone matches
anything (short-circuit in the source), otherwise the wildcard regex runs. -/
def matchWildcard (str pattern : String) : Bool :=
  if pattern == "*" then true else wildMatch pattern.toList str.toList

/-- The specification's glob grammar, stated denotationally: a pattern matches
a string when it can be decomposed so that each literal character matches one
character case-insensitively, each `?` matches exactly one arbitrary
character, and each `*` matches any (possibly empty) run of characters. -/
inductive GlobMatches : List Char → List Char → Prop where
  | nil : GlobMatches [] []
  | lit {c d : Char} {p s : List Char} : c ≠ '*' → c ≠ '?' →
      c.toLower = d.toLower → GlobMatches p s → GlobMatches (c :: p) (d :: s)
  | one {d : Char} {p s : List Char} : GlobMatches p s → GlobMatches ('?' :: p) (d :: s)
  | starSkip {p s : List Char} : GlobMatches p s → GlobMatches ('*' :: p) s
  | starTake {d : Char} {p s : List Char} : GlobMatches ('*' :: p) s → GlobMatches ('*' :: p) (d :: s)

lemma wildMatch_sound : ∀ (n : Nat) (p s : List Char), p.length + s.length ≤ n →
    wildMatch p s = true → GlobMatches p s := by
  intro n
  induction n with
  | zero =>
    intro p s hlen h
    cases p with
    | nil =>
      cases s with
      | nil => exact .nil
      | cons d s' => simp at hlen
    | cons c p' => simp at hlen
  | succ n ih =>
    intro p s hlen h
    cases p with
    | nil =>
      have hs : s.isEmpty = true := by simpa [wildMatch] using h
      cases s with
      | nil => exact .nil
      | cons d s' => simp at hs
    | cons c p' =>
      by_cases hc : c = '*'
      · subst hc
        cases s with
        | nil =>
          simp [wildMatch] at h
          exact .starSkip (ih p' [] (by simp at hlen ⊢; omega) h)
        | cons d s' =>
          simp [wildMatch] at h
          rcases h with h | h
          · exact .starSkip (ih p' (d :: s') (by simp at hlen ⊢; omega) h)
          · exact .starTake (ih ('*' :: p') s' (by simp at hlen ⊢; omega) h)
      · by_cases hq : c = '?'
        · subst hq
          cases s with
          | nil => simp [wildMatch] at h
          | cons d s' =>
            simp [wildMatch] at h
            exact .one (ih p' s' (by simp at hlen ⊢; omega) h)
        · cases s with
          | nil =>
            simp [wildMatch, hc, hq] at h
          | cons d s' =>
            simp only [wildMatch, if_neg hc, if_neg hq, Bool.and_eq_true, beq_iff_eq] at h
            exact .lit hc hq h.1 (ih p' s' (by simp at hlen ⊢; omega) h.2)

lemma wildMatch_complete {p s : List Char} (h : GlobMatches p s) : wildMatch p s = true := by
  induction h with
  | nil => simp [wildMatch]
  | lit hc hq hl _ ih =>
    simp only [wildMatch, if_neg hc, if_neg hq]
    simp [hl, ih]
  | one _ ih => simp [wildMatch, ih]
  | @starSkip p s _ ih => cases s <;> simp [wildMatch, ih]
  | starTake _ ih => simp [wildMatch, ih]

lemma globMatches_star : ∀ s : List Char, GlobMatches ['*'] s := by
  intro s
  induction s with
  | nil => exact .starSkip .nil
  | cons d s' ih => exact .starTake ih

lemma matchWildcard_iff (str pattern : String) :
    matchWildcard str pattern = true ↔ GlobMatches pattern.toList str.toList := by
  unfold matchWildcard
  by_cases hp : pattern = "*"
  · subst hp
    rw [if_pos (by decide)]
    constructor
    · intro _
      have hstar : ("*" : String).toList = ['*'] := rfl
      rw [hstar]
      exact globMatches_star _
    · intro _
      rfl
  · rw [if_neg (by simpa using hp)]
    exact ⟨fun h => wildMatch_sound _ _ _ le_rfl h, wildMatch_complete⟩

/-- The hostname/pathname view of `new URL(...)`; `parseUrl` returning `none`
models the constructor throwing on an invalid URL. -/
structure UrlParts where
  hostname : String
  pathname : String
deriving Repr, DecidableEq

/-- `EntryNode['match']` from `src/shared/models.ts`: optional method
whitelist, optional host glob list, optional path glob list. -/
structure MatchRule where
  methods : Option (List String) := none
  hostPatterns : Option (List String) := none
  pathPatterns : Option (List String) := none
deriving Repr, DecidableEq

/-- The method dimension of `FlowEngine.matchesRule`: passes when there is no
(or an empty) method list, or `rule.methods.includes(request.method)`. -/
def methodDimCheck (method : String) : Option (List String) → Bool
  | some ms => if 0 < ms.length then ms.contains method else true
  | none => true

/-- One pattern dimension of `FlowEngine.matchesRule` (`f` projects the
hostname or the pathname out of the parsed URL): passes when there is no (or
an empty) pattern list, or some glob matches `f (new URL(request.url))`; a
URL parse failure under a non-empty pattern list fails the rule (the
`try/catch` in the source returns false). -/
def patternDimCheck (parseUrl : String → Option UrlParts) (url : String)
    (f : UrlParts → String) : Option (List String) → Bool
  | some pats =>
    if 0 < pats.length then
      (match parseUrl url with
        | some u => pats.any (fun pat => matchWildcard (f u) pat)
        | none => false)
    else true
  | none => true

/-- `FlowEngine.matchesRule`: every constrained dimension must pass (the
source returns false at the first failing check, equal to this conjunction). -/
def matchesRule (parseUrl : String → Option UrlParts) (req : HttpRequest)
    (rule : MatchRule) : Bool :=
  methodDimCheck req.method rule.methods
  && patternDimCheck parseUrl req.url (fun u => u.hostname) rule.hostPatterns
  && patternDimCheck parseUrl req.url (fun u => u.pathname) rule.pathPatterns

/-- Terminator modes from `src/shared/models.ts`. -/
inductive TermMode where
  | passThrough
  | endWithResponse
deriving Repr, DecidableEq

/-- `FlowNode` variants (Entry / Component / Condition / Terminator). -/
inductive FlowNode where
  | entry (id : String) (rule : MatchRule)
  | component (id : String) (componentId : String) (config : List (String × String))
  | condition (id : String) (expression : String)
  | terminator (id : String) (mode : TermMode)
deriving Repr, DecidableEq

def FlowNode.nodeId : FlowNode → String
  | .entry i _ => i
  | .component i _ _ => i
  | .condition i _ => i
  | .terminator i _ => i

def FlowNode.isEntry : FlowNode → Bool
  | .entry _ _ => true
  | _ => false

/-- A flow edge; `conditionLabel` carries the `"true"`/`"false"` branch label
out of a Condition node. -/
structure FlowEdge where
  fromId : String
  toId : String
  conditionLabel : Option String := none
deriving Repr, DecidableEq

/-- `FlowDefinition`: id, enabled flag, nodes and directed edges. -/
structure FlowDefinition where
  id : String
  enabled : Bool := true
  nodes : List FlowNode
  edges : List FlowEdge
deriving Repr, DecidableEq

/-- `FlowEngine.findEntryNode`: the first node of type entry. -/
def findEntryNode (flow : FlowDefinition) : Option FlowNode :=
  flow.nodes.find? (fun n => n.isEntry)

/-- The match rule of a flow's entry node, when the flow has one. -/
def entryRuleOf (flow : FlowDefinition) : Option MatchRule :=
  match findEntryNode flow with
  | some (.entry _ rule) => some rule
  | _ => none

/-- `FlowEngine.findMatchingFlow`: iterate the flows in order and return the
first whose entry node's rule matches the request. -/
def findMatchingFlow (parseUrl : String → Option UrlParts) :
    List FlowDefinition → HttpRequest → Option FlowDefinition
  | [], _ => none
  | flow :: rest, req =>
    match entryRuleOf flow with
    | some rule =>
      if matchesRule parseUrl req rule then some flow
      else findMatchingFlow parseUrl rest req
    | none => findMatchingFlow parseUrl rest req

/-- §4.3's Entry-matching predicate, stated from the specification's words:
every constrained dimension passes — the method is in the method list, the
URL hostname matches at least one host glob, and the URL path matches at
least one path glob, each vacuously true when the list is absent (or empty,
which constrains nothing). -/
def SpecRuleMatches (parseUrl : String → Option UrlParts) (req : HttpRequest)
    (rule : MatchRule) : Prop :=
  (∀ ms, rule.methods = some ms → ms ≠ [] → req.method ∈ ms)
  ∧ (∀ pats, rule.hostPatterns = some pats → pats ≠ [] →
      ∃ u, parseUrl req.url = some u ∧ ∃ pat ∈ pats, GlobMatches pat.toList u.hostname.toList)
  ∧ (∀ pats, rule.pathPatterns = some pats → pats ≠ [] →
      ∃ u, parseUrl req.url = some u ∧ ∃ pat ∈ pats, GlobMatches pat.toList u.pathname.toList)

lemma methodDim_iff (method : String) (o : Option (List String)) :
    methodDimCheck method o = true
    ↔ (∀ ms, o = some ms → ms ≠ [] → method ∈ ms) := by
  cases o with
  | none => simp [methodDimCheck]
  | some ms =>
    simp only [methodDimCheck]
    by_cases hlen : 0 < ms.length
    · rw [if_pos hlen]
      constructor
      · intro h ms' he hne
        cases he
        simpa using h
      · intro h
        have hne : ms ≠ [] := by
          intro hnil; subst hnil; simp at hlen
        simpa using h ms rfl hne
    · rw [if_neg hlen]
      have hnil : ms = [] := by
        cases ms with
        | nil => rfl
        | cons a l => simp at hlen
      subst hnil
      constructor
      · intro _ ms' he hne
        cases he
        exact absurd rfl hne
      · intro _
        rfl

lemma patternDim_iff (parseUrl : String → Option UrlParts) (url : String)
    (o : Option (List String)) (f : UrlParts → String) :
    patternDimCheck parseUrl url f o = true
    ↔ (∀ pats, o = some pats → pats ≠ [] →
        ∃ u, parseUrl url = some u ∧ ∃ pat ∈ pats, GlobMatches pat.toList (f u).toList) := by
  cases o with
  | none => simp [patternDimCheck]
  | some pats =>
    simp only [patternDimCheck]
    by_cases hlen : 0 < pats.length
    · have hne : pats ≠ [] := by
        intro hnil; subst hnil; simp at hlen
      rw [if_pos hlen]
      cases hu : parseUrl url with
      | none =>
        simp only [hu]
        constructor
        · intro h
          exact absurd h (by simp)
        · intro h
          obtain ⟨u, hu2, _⟩ := h pats rfl hne
          cases hu2
      | some u =>
        simp only [hu, List.any_eq_true]
        constructor
        · rintro ⟨pat, hmem, hmatch⟩ pats' he hne'
          cases he
          exact ⟨u, rfl, pat, hmem, (matchWildcard_iff _ _).mp hmatch⟩
        · intro h
          obtain ⟨u', hu', pat, hmem, hglob⟩ := h pats rfl hne
          cases hu'
          exact ⟨pat, hmem, (matchWildcard_iff _ _).mpr hglob⟩
    · rw [if_neg hlen]
      have hnil : pats = [] := by
        cases pats with
        | nil => rfl
        | cons a l => simp at hlen
      subst hnil
      constructor
      · intro _ pats' he hne
        cases he
        exact absurd rfl hne
      · intro _
        rfl

lemma matchesRule_iff (parseUrl : String → Option UrlParts) (req : HttpRequest)
    (rule : MatchRule) :
    matchesRule parseUrl req rule = true ↔ SpecRuleMatches parseUrl req rule := by
  unfold matchesRule SpecRuleMatches
  rw [Bool.and_eq_true, Bool.and_eq_true, and_assoc]
  exact and_congr (methodDim_iff req.method rule.methods)
    (and_congr (patternDim_iff parseUrl req.url rule.hostPatterns (fun u => u.hostname))
      (patternDim_iff parseUrl req.url rule.pathPatterns (fun u => u.pathname)))

/-- C5: for every request and every list of enabled flows, the first flow
whose Entry rule matches wins; an Entry rule matches exactly when every
constrained dimension passes (method listed, hostname matches a host glob,
path matches a path glob, absent/empty lists constraining nothing); the
wildcard matcher realises the spec's glob grammar (`*` any run of
characters, `?` exactly one, literals case-insensitive); and the pattern
`*` alone matches any string. -/
theorem flow_matching_first_match_and_glob_semantics :
    (∀ parseUrl flows req, findMatchingFlow parseUrl flows req
        = flows.find? (fun f =>
            match entryRuleOf f with
            | some rule => matchesRule parseUrl req rule
            | none => false))
    ∧ (∀ parseUrl req rule,
        matchesRule parseUrl req rule = true ↔ SpecRuleMatches parseUrl req rule)
    ∧ (∀ p s, wildMatch p s = true ↔ GlobMatches p s)
    ∧ (∀ str, matchWildcard str "*" = true) := by
  refine ⟨?_, matchesRule_iff, fun p s => ⟨wildMatch_sound _ _ _ le_rfl, wildMatch_complete⟩, ?_⟩
  · intro parseUrl flows req
    induction flows with
    | nil => rfl
    | cons flow rest ih =>
      rw [List.find?_cons]
      cases hrule : entryRuleOf flow with
      | none => simpa [findMatchingFlow, hrule] using ih
      | some rule =>
        by_cases hm : matchesRule parseUrl req rule
        · simp [findMatchingFlow, hrule, hm]
        · simp only [findMatchingFlow, hrule, hm, if_false]
          simpa [hm] using ih
  · intro str
    simp [matchWildcard]

/-! ## Flow execution (`FlowEngine.runFlow`, `FlowEngine.processRequest`)
and the plain-HTTP request handler (`ProxyEngine.handleRequest`) -/

/-- `ComponentContext`: the live request, the optional response and the
variable bag of one flow execution.  The log sink is an output effect and is
not modelled. -/
structure ComponentContext where
  request : HttpRequest
  response : Option HttpResponse := none
  vars : List (String × String) := []
deriving Repr, DecidableEq

/-- `ComponentResult`: any subset of replacement request, synthesized
response, variable updates and terminate flag (`terminate` absent is falsy). -/
structure ComponentResult where
  request : Option HttpRequest := none
  response : Option HttpResponse := none
  vars : Option (List (String × String)) := none
  terminate : Bool := false
deriving Repr, DecidableEq

/-- Which `return` statement of `FlowEngine.runFlow` produced the result.
`fellThrough` is the `return` after the `while` loop exits without reaching a
terminator: the next node id was null (no outgoing edge) or the node lookup
failed (`break`). -/
inductive FlowExit where
  | noFlow
  | noEntry
  | terminated
  | endedWithResponse
  | passedThrough
  | fellThrough
deriving Repr, DecidableEq

/-- The `FlowProcessResult` of one `runFlow` call, together with the exit
kind (ghost information recording which return fired). -/
structure FlowRunResult where
  request : HttpRequest
  response : Option HttpResponse
  exitKind : FlowExit
deriving Repr, DecidableEq

/-- `FlowEngine.getNode`. -/
def getNode (flow : FlowDefinition) (nodeId : String) : Option FlowNode :=
  flow.nodes.find? (fun n => n.nodeId == nodeId)

/-- `FlowEngine.getNextNodeId` (`edge?.to || null`: a missing edge, or an
edge with an empty target id, yields null). -/
def getNextNodeId (flow : FlowDefinition) (fromNodeId : String) : Option String :=
  match flow.edges.find? (fun e => e.fromId == fromNodeId) with
  | some e => if e.toId = "" then none else some e.toId
  | none => none

/-- `FlowEngine.getNextNodeIdByLabel`. -/
def getNextNodeIdByLabel (flow : FlowDefinition) (fromNodeId label : String) :
    Option String :=
  match flow.edges.find? (fun e => e.fromId == fromNodeId
      && e.conditionLabel == some label) with
  | some e => if e.toId = "" then none else some e.toId
  | none => none

/-- Merging a `ComponentResult` into the context, as the component case of
`runFlow` does: a present request replaces the live one, a present response
installs on the context, present vars merge over existing vars
(`{...ctx.vars, ...result.vars}`). -/
def applyComponentResult (ctx : ComponentContext) (r : ComponentResult) :
    ComponentContext :=
  { request := r.request.getD ctx.request
    response := match r.response with
      | some resp => some resp
      | none => ctx.response
    vars := match r.vars with
      | some vs => vs.foldl (fun acc kv => mapSet acc kv.1 kv.2) ctx.vars
      | none => ctx.vars }

/-- The `while (currentNodeId)` loop of `FlowEngine.runFlow`.  `exec`
abstracts `executeComponentNode` (component-store lookup, builtin or sandbox
dispatch, with unknown components and thrown errors caught to an empty
result); `evalCond` abstracts `evalCondition` (`new Function` evaluation,
errors treated as false).  `fuel` bounds the number of iterations; `none`
models a walk that never exits (a cyclic graph loops forever in the source). -/
def runFlowLoop (exec : String → List (String × String) → ComponentContext → ComponentResult)
    (evalCond : String → ComponentContext → Bool) (flow : FlowDefinition) :
    Nat → ComponentContext → Option String → Option FlowRunResult
  | _, ctx, none => some ⟨ctx.request, ctx.response, .fellThrough⟩
  | 0, _, some _ => none
  | fuel + 1, ctx, some nodeId =>
    match getNode flow nodeId with
    | none => some ⟨ctx.request, ctx.response, .fellThrough⟩
    | some (.entry _ _) =>
      runFlowLoop exec evalCond flow fuel ctx (getNextNodeId flow nodeId)
    | some (.component _ componentId config) =>
      let result := exec componentId config ctx
      let ctx' := applyComponentResult ctx result
      if result.terminate then
        some ⟨ctx'.request, ctx'.response, .terminated⟩
      else
        runFlowLoop exec evalCond flow fuel ctx' (getNextNodeId flow nodeId)
    | some (.condition _ expression) =>
      runFlowLoop exec evalCond flow fuel ctx
        (getNextNodeIdByLabel flow nodeId
          (if evalCond expression ctx then "true" else "false"))
    | some (.terminator _ mode) =>
      if mode = .endWithResponse ∧ ctx.response.isSome then
        some ⟨ctx.request, ctx.response, .endedWithResponse⟩
      else
        some ⟨ctx.request, none, .passedThrough⟩

/-- `FlowEngine.runFlow`: build the context from a copy of the request, find
the entry node (absent entry returns the request unchanged), then walk. -/
def runFlow (exec : String → List (String × String) → ComponentContext → ComponentResult)
    (evalCond : String → ComponentContext → Bool) (fuel : Nat)
    (flow : FlowDefinition) (request : HttpRequest) : Option FlowRunResult :=
  match findEntryNode flow with
  | none => some ⟨request, none, .noEntry⟩
  | some e => runFlowLoop exec evalCond flow fuel { request := request } (some e.nodeId)

/-- The outcome of `FlowEngine.processRequest` (request, optional response,
matched flow id), plus the exit kind. -/
structure FlowProcessOutcome where
  request : HttpRequest
  response : Option HttpResponse
  matchedFlowId : Option String
  exitKind : FlowExit
deriving Repr, DecidableEq

/-- `FlowEngine.processRequest`: `flows` is the enabled-flow list returned by
`flowStore.getEnabled()`; the first flow with a matching entry runs. -/
def processRequest (exec : String → List (String × String) → ComponentContext → ComponentResult)
    (evalCond : String → ComponentContext → Bool) (parseUrl : String → Option UrlParts)
    (fuel : Nat) (flows : List FlowDefinition) (request : HttpRequest) :
    Option FlowProcessOutcome :=
  match findMatchingFlow parseUrl flows request with
  | none => some ⟨request, none, none, .noFlow⟩
  | some flow =>
    match runFlow exec evalCond fuel flow request with
    | none => none
    | some r => some ⟨r.request, r.response, some flow.id, r.exitKind⟩

/-- What `ProxyEngine.forwardRequest` resolves with: the recorded
`HttpResponse` and the original raw body bytes. -/
structure UpstreamAnswer where
  response : HttpResponse
  rawBody : List Nat
deriving Repr, DecidableEq

/-- What `ProxyEngine.handleRequest` writes back to the client: a
flow-synthesized response, the upstream response together with its raw body
buffer, or the catch-all 502 (`writeHead(502, {'Content-Type':
'text/plain'}); end('Proxy Error: ' + message)`). -/
inductive ClientReply where
  | flowResp (response : HttpResponse)
  | upstreamResp (response : HttpResponse) (rawBody : List Nat)
  | proxyError (statusCode : Nat) (contentType : String) (body : String)
deriving Repr, DecidableEq

/-- Result of one `handleRequest` run: the request store afterwards, the
client-visible reply, and the flow walk's exit kind. -/
structure HandleResult where
  store : List RequestRecord
  reply : ClientReply
  exitKind : FlowExit
deriving Repr, DecidableEq

/-- `ProxyEngine.handleRequest` on an already-built `HttpRequest`:
record the bare request, run the flow engine, then either serialize the
flow-synthesized response, forward upstream and relay its answer, or send
the 502 error reply.  `upstream` abstracts `new URL(...)` plus
`forwardRequest` (an `Except.error` is a thrown URL-parse or connect/read
error); `elapsed` abstracts `Date.now() - startTime` at the moment the
record is updated.  Record updates mirror the source: the record is added
once bare, and re-added (update in place) with response, duration and
matched flow id only on the two success paths — the catch path leaves the
record as first added. -/
def handleRequest (upstream : HttpRequest → Except String UpstreamAnswer)
    (exec : String → List (String × String) → ComponentContext → ComponentResult)
    (evalCond : String → ComponentContext → Bool) (parseUrl : String → Option UrlParts)
    (fuel : Nat) (flows : List FlowDefinition) (store : List RequestRecord)
    (httpRequest : HttpRequest) (elapsed : Nat) : Option HandleResult :=
  let record0 : RequestRecord := { id := httpRequest.id, request := httpRequest }
  let st1 := RequestStore.add store record0
  match processRequest exec evalCond parseUrl fuel flows httpRequest with
  | none => none
  | some fr =>
    match fr.response with
    | some resp =>
      let record1 : RequestRecord :=
        { record0 with response := some resp, durationMs := some elapsed,
                       matchedFlowId := fr.matchedFlowId }
      some ⟨RequestStore.add st1 record1, .flowResp resp, fr.exitKind⟩
    | none =>
      match upstream fr.request with
      | .ok ans =>
        let record1 : RequestRecord :=
          { record0 with response := some ans.response, durationMs := some elapsed,
                         matchedFlowId := fr.matchedFlowId }
        some ⟨RequestStore.add st1 record1, .upstreamResp ans.response ans.rawBody, fr.exitKind⟩
      | .error msg =>
        some ⟨st1, .proxyError 502 "text/plain" ("Proxy Error: " ++ msg), fr.exitKind⟩

lemma runFlowLoop_response_exit
    (exec : String → List (String × String) → ComponentContext → ComponentResult)
    (evalCond : String → ComponentContext → Bool) (flow : FlowDefinition) :
    ∀ (fuel : Nat) (ctx : ComponentContext) (cur : Option String) (res : FlowRunResult),
      runFlowLoop exec evalCond flow fuel ctx cur = some res →
      res.response.isSome = true →
      (res.exitKind = .terminated ∨ res.exitKind = .endedWithResponse
        ∨ res.exitKind = .fellThrough) := by
  intro fuel
  induction fuel with
  | zero =>
    intro ctx cur res h hsome
    cases cur with
    | none =>
      simp only [runFlowLoop] at h
      cases h
      right; right; rfl
    | some nodeId => simp [runFlowLoop] at h
  | succ fuel ih =>
    intro ctx cur res h hsome
    cases cur with
    | none =>
      simp only [runFlowLoop] at h
      cases h
      right; right; rfl
    | some nodeId =>
      cases hn : getNode flow nodeId with
      | none =>
        simp only [runFlowLoop, hn] at h
        cases h
        right; right; rfl
      | some node =>
        cases node with
        | entry i rule =>
          simp only [runFlowLoop, hn] at h
          exact ih _ _ _ h hsome
        | component i componentId config =>
          simp only [runFlowLoop, hn] at h
          by_cases ht : (exec componentId config ctx).terminate = true
          · rw [if_pos ht] at h
            cases h
            left; rfl
          · rw [if_neg ht] at h
            exact ih _ _ _ h hsome
        | condition i expression =>
          simp only [runFlowLoop, hn] at h
          exact ih _ _ _ h hsome
        | terminator i mode =>
          simp only [runFlowLoop, hn] at h
          by_cases hm : mode = TermMode.endWithResponse ∧ ctx.response.isSome = true
          · rw [if_pos hm] at h
            cases h
            right; left; rfl
          · rw [if_neg hm] at h
            cases h
            simp at hsome

lemma processRequest_response_exit
    (exec : String → List (String × String) → ComponentContext → ComponentResult)
    (evalCond : String → ComponentContext → Bool) (parseUrl : String → Option UrlParts)
    (fuel : Nat) (flows : List FlowDefinition) (request : HttpRequest)
    (fr : FlowProcessOutcome)
    (h : processRequest exec evalCond parseUrl fuel flows request = some fr)
    (hsome : fr.response.isSome = true) :
    fr.exitKind = .terminated ∨ fr.exitKind = .endedWithResponse
      ∨ fr.exitKind = .fellThrough := by
  unfold processRequest at h
  cases hm : findMatchingFlow parseUrl flows request with
  | none =>
    simp only [hm] at h
    cases h
    simp at hsome
  | some flow =>
    simp only [hm] at h
    unfold runFlow at h
    cases he : findEntryNode flow with
    | none =>
      simp only [he] at h
      cases h
      simp at hsome
    | some e =>
      simp only [he] at h
      cases hr : runFlowLoop exec evalCond flow fuel { request := request } (some e.nodeId) with
      | none => rw [hr] at h; cases h
      | some r =>
        rw [hr] at h
        cases h
        exact runFlowLoop_response_exit exec evalCond flow _ _ _ _ hr hsome

/-- C1 (amended): every client-visible outcome of `handleRequest` is (i) the
upstream's answer for the flow-mutated request, (ii) a flow-synthesized
response, delivered only when the walk ended by a component's terminate
flag, an `end_with_response` terminator with a response present, or — the
case the original claim misses — the walk falling off the graph (no
successor edge / missing node) with a response still installed on the
context, or (iii) the 502 error reply when forwarding failed. -/
theorem client_response_provenance
    (upstream : HttpRequest → Except String UpstreamAnswer)
    (exec : String → List (String × String) → ComponentContext → ComponentResult)
    (evalCond : String → ComponentContext → Bool) (parseUrl : String → Option UrlParts)
    (fuel : Nat) (flows : List FlowDefinition) (store : List RequestRecord)
    (req : HttpRequest) (elapsed : Nat) (hr : HandleResult)
    (h : handleRequest upstream exec evalCond parseUrl fuel flows store req elapsed = some hr) :
    (∃ fr ans, processRequest exec evalCond parseUrl fuel flows req = some fr ∧
        fr.response = none ∧ upstream fr.request = Except.ok ans ∧
        hr.reply = ClientReply.upstreamResp ans.response ans.rawBody)
    ∨ (∃ fr resp, processRequest exec evalCond parseUrl fuel flows req = some fr ∧
        fr.response = some resp ∧ hr.reply = ClientReply.flowResp resp ∧
        (hr.exitKind = FlowExit.terminated ∨ hr.exitKind = FlowExit.endedWithResponse
          ∨ hr.exitKind = FlowExit.fellThrough))
    ∨ (∃ fr msg, processRequest exec evalCond parseUrl fuel flows req = some fr ∧
        fr.response = none ∧ upstream fr.request = Except.error msg ∧
        hr.reply = ClientReply.proxyError 502 "text/plain" ("Proxy Error: " ++ msg)) := by
  unfold handleRequest at h
  cases hpr : processRequest exec evalCond parseUrl fuel flows req with
  | none =>
    simp only [hpr] at h
    cases h
  | some fr =>
    simp only [hpr] at h
    cases hfr : fr.response with
    | some resp =>
      simp only [hfr] at h
      cases h
      right; left
      refine ⟨fr, resp, rfl, hfr, rfl, ?_⟩
      exact processRequest_response_exit exec evalCond parseUrl fuel flows req fr hpr
        (by rw [hfr]; rfl)
    | none =>
      simp only [hfr] at h
      cases hup : upstream fr.request with
      | ok ans =>
        simp only [hup] at h
        cases h
        left
        exact ⟨fr, ans, rfl, hfr, hup, rfl⟩
      | error msg =>
        simp only [hup] at h
        cases h
        right; right
        exact ⟨fr, msg, rfl, hfr, hup, rfl⟩

/-- C1 as stated: assuming forwarding always succeeds, the reply is either
the upstream's answer for the flow-mutated request or a flow response whose
walk ended at a terminating component (terminate flag, or `end_with_response`
with a response present) — with no third possibility. -/
def ClaimC1Statement : Prop :=
  ∀ (upstream : HttpRequest → Except String UpstreamAnswer)
    (exec : String → List (String × String) → ComponentContext → ComponentResult)
    (evalCond : String → ComponentContext → Bool) (parseUrl : String → Option UrlParts)
    (fuel : Nat) (flows : List FlowDefinition) (store : List RequestRecord)
    (req : HttpRequest) (elapsed : Nat) (hr : HandleResult),
    (∀ q, ∃ ans, upstream q = Except.ok ans) →
    handleRequest upstream exec evalCond parseUrl fuel flows store req elapsed = some hr →
    (∃ fr ans, processRequest exec evalCond parseUrl fuel flows req = some fr ∧
        fr.response = none ∧ upstream fr.request = Except.ok ans ∧
        hr.reply = ClientReply.upstreamResp ans.response ans.rawBody)
    ∨ (∃ resp, hr.reply = ClientReply.flowResp resp ∧
        (hr.exitKind = FlowExit.terminated ∨ hr.exitKind = FlowExit.endedWithResponse))

/-- A flow whose entry leads to a component node with no outgoing edge: the
walk falls off the graph after the component runs. -/
def deadEndFlow : FlowDefinition :=
  { id := "f1"
    nodes := [.entry "e1" {}, .component "c1" "script-1" []]
    edges := [{ fromId := "e1", toId := "c1" }] }

def c1Resp : HttpResponse :=
  { statusCode := 418, headers := [("content-type", "text/plain")], body := some "teapot" }

def c1Req : HttpRequest :=
  { id := "r1", method := "GET", url := "http://example.test/hello", headers := [] }

/-- A component (e.g. a user script) that synthesizes a response without
setting the terminate flag. -/
def c1Exec : String → List (String × String) → ComponentContext → ComponentResult :=
  fun _ _ _ => { response := some c1Resp }

def c1Upstream : HttpRequest → Except String UpstreamAnswer :=
  fun _ => Except.ok ⟨{ statusCode := 200 }, []⟩

/-- C1 fails as stated: on `deadEndFlow`, a component installs a response
without terminating, the walk then falls off the graph, and `handleRequest`
still delivers that response to the client — an outcome the claim's two
cases do not cover (the upstream is never contacted and no terminating
component produced the response). -/
theorem client_response_provenance_counterexample : ¬ ClaimC1Statement := by
  intro hclaim
  have hrun : handleRequest c1Upstream c1Exec (fun _ _ => false) (fun _ => none) 5
      [deadEndFlow] [] c1Req 7
      = some ⟨[{ id := "r1", request := c1Req, response := some c1Resp,
                 durationMs := some 7, matchedFlowId := some "f1" }],
              ClientReply.flowResp c1Resp, FlowExit.fellThrough⟩ := by decide
  have hok : ∀ q : HttpRequest, ∃ ans, c1Upstream q = Except.ok ans := fun _ => ⟨_, rfl⟩
  have hd := hclaim c1Upstream c1Exec (fun _ _ => false) (fun _ => none) 5
    [deadEndFlow] [] c1Req 7 _ hok hrun
  rcases hd with ⟨fr, ans, _, _, _, hreply⟩ | ⟨resp, hreply, hex⟩
  · simp at hreply
  · rcases hex with hex | hex <;> simp at hex

def w1Req : HttpRequest := { id := "w", method := "GET", url := "http://w/", headers := [] }

def w1Upstream : HttpRequest → Except String UpstreamAnswer :=
  fun _ => Except.ok ⟨{ statusCode := 200 }, [7]⟩

def w1Result : HandleResult :=
  { store := [{ id := "w", request := w1Req, response := some { statusCode := 200 },
                durationMs := some 3 }]
    reply := .upstreamResp { statusCode := 200 } [7]
    exitKind := .noFlow }

/-- Witness for the provenance theorem: a concrete run with no flows, where
the upstream's answer is relayed. -/
theorem client_response_provenance_witness :
    handleRequest w1Upstream (fun _ _ _ => {}) (fun _ _ => false) (fun _ => none) 1 [] []
        w1Req 3 = some w1Result
    ∧ ((∃ fr ans, processRequest (fun _ _ _ => {}) (fun _ _ => false) (fun _ => none) 1 []
            w1Req = some fr ∧
          fr.response = none ∧ w1Upstream fr.request = Except.ok ans ∧
          w1Result.reply = ClientReply.upstreamResp ans.response ans.rawBody)
      ∨ (∃ fr resp, processRequest (fun _ _ _ => {}) (fun _ _ => false) (fun _ => none) 1 []
            w1Req = some fr ∧
          fr.response = some resp ∧ w1Result.reply = ClientReply.flowResp resp ∧
          (w1Result.exitKind = FlowExit.terminated
            ∨ w1Result.exitKind = FlowExit.endedWithResponse
            ∨ w1Result.exitKind = FlowExit.fellThrough))
      ∨ (∃ fr msg, processRequest (fun _ _ _ => {}) (fun _ _ => false) (fun _ => none) 1 []
            w1Req = some fr ∧
          fr.response = none ∧ w1Upstream fr.request = Except.error msg ∧
          w1Result.reply = ClientReply.proxyError 502 "text/plain" ("Proxy Error: " ++ msg))) := by
  have h : handleRequest w1Upstream (fun _ _ _ => {}) (fun _ _ => false) (fun _ => none) 1 [] []
      w1Req 3 = some w1Result := by decide
  exact ⟨h, client_response_provenance w1Upstream (fun _ _ _ => {}) (fun _ _ => false)
    (fun _ => none) 1 [] [] w1Req 3 w1Result h⟩

lemma find?_eq_none_of_any_false {α : Type} (l : List α) (p : α → Bool)
    (h : l.any p = false) : l.find? p = none := by
  rw [List.find?_eq_none]
  intro x hx
  simp only [List.any_eq_false] at h
  simpa using h x hx

lemma storeAdd_getById_fresh (store : List RequestRecord) (r : RequestRecord)
    (h : store.any (fun x => x.id == r.id) = false) :
    RequestStore.getById (RequestStore.add store r) r.id = some r := by
  unfold RequestStore.add RequestStore.getById
  simp only [h, Bool.false_eq_true, if_false]
  have hstore : store.find? (fun x => x.id == r.id) = none :=
    find?_eq_none_of_any_false _ _ h
  have htail : store.tail.find? (fun x => x.id == r.id) = none := by
    apply find?_eq_none_of_any_false
    simp only [List.any_eq_false] at h ⊢
    intro x hx
    exact h x (List.mem_of_mem_tail hx)
  split
  · rw [List.find?_append, htail]
    simp [List.find?]
  · rw [List.find?_append, hstore]
    simp [List.find?]

/-- C6 (amended): when the flow produces no response and forwarding the
request upstream fails, the client receives a 502 with the plain-text reason
`"Proxy Error: " ++ msg`, and the request's record is left exactly as first
added: no response, and — contrary to the original claim — no duration
either (the catch path never updates the record). -/
theorem upstream_failure_502_bare_record
    (upstream : HttpRequest → Except String UpstreamAnswer)
    (exec : String → List (String × String) → ComponentContext → ComponentResult)
    (evalCond : String → ComponentContext → Bool) (parseUrl : String → Option UrlParts)
    (fuel : Nat) (flows : List FlowDefinition) (store : List RequestRecord)
    (req : HttpRequest) (elapsed : Nat) (fr : FlowProcessOutcome) (msg : String)
    (hfr : processRequest exec evalCond parseUrl fuel flows req = some fr)
    (hnone : fr.response = none)
    (herr : upstream fr.request = Except.error msg)
    (hfresh : store.any (fun x => x.id == req.id) = false) :
    ∃ hr, handleRequest upstream exec evalCond parseUrl fuel flows store req elapsed = some hr
      ∧ hr.reply = ClientReply.proxyError 502 "text/plain" ("Proxy Error: " ++ msg)
      ∧ ∃ rec, RequestStore.getById hr.store req.id = some rec
          ∧ rec.response = none ∧ rec.durationMs = none := by
  refine ⟨⟨RequestStore.add store { id := req.id, request := req },
           .proxyError 502 "text/plain" ("Proxy Error: " ++ msg), fr.exitKind⟩, ?_, rfl, ?_⟩
  · unfold handleRequest
    simp only [hfr, hnone, herr]
  · exact ⟨{ id := req.id, request := req },
      storeAdd_getById_fresh store { id := req.id, request := req } hfresh, rfl, rfl⟩

/-- C6 as stated: in the failure case the record would additionally carry the
elapsed duration. -/
def ClaimC6Statement : Prop :=
  ∀ (upstream : HttpRequest → Except String UpstreamAnswer)
    (exec : String → List (String × String) → ComponentContext → ComponentResult)
    (evalCond : String → ComponentContext → Bool) (parseUrl : String → Option UrlParts)
    (fuel : Nat) (flows : List FlowDefinition) (store : List RequestRecord)
    (req : HttpRequest) (elapsed : Nat) (fr : FlowProcessOutcome) (msg : String)
    (hr : HandleResult),
    processRequest exec evalCond parseUrl fuel flows req = some fr →
    fr.response = none →
    upstream fr.request = Except.error msg →
    handleRequest upstream exec evalCond parseUrl fuel flows store req elapsed = some hr →
    hr.reply = ClientReply.proxyError 502 "text/plain" ("Proxy Error: " ++ msg)
    ∧ ∃ rec, RequestStore.getById hr.store req.id = some rec
        ∧ rec.response = none ∧ rec.durationMs = some elapsed

def c6Req : HttpRequest :=
  { id := "r6", method := "GET", url := "http://down.test/", headers := [] }

/-- C6 fails as stated: after a concrete failing forward, the stored record's
`durationMs` is still unset (the error path never writes the duration). -/
theorem upstream_failure_duration_counterexample : ¬ ClaimC6Statement := by
  intro hclaim
  have h := hclaim (fun _ => Except.error "boom") (fun _ _ _ => {}) (fun _ _ => false)
    (fun _ => none) 1 [] [] c6Req 9 ⟨c6Req, none, none, .noFlow⟩ "boom"
    ⟨[{ id := "r6", request := c6Req }],
      .proxyError 502 "text/plain" "Proxy Error: boom", .noFlow⟩
    (by decide) (by decide) rfl (by decide)
  rcases h.2 with ⟨rec, hrec, _, hdur⟩
  have hcomp : RequestStore.getById
      ([{ id := "r6", request := c6Req }] : List RequestRecord) "r6"
      = some { id := "r6", request := c6Req } := by decide
  have heq : some rec = some ({ id := "r6", request := c6Req } : RequestRecord) :=
    hrec.symm.trans hcomp
  rw [Option.some.inj heq] at hdur
  simp at hdur

/-- Witness for the 502/bare-record theorem at the same concrete failing
forward. -/
theorem upstream_failure_502_bare_record_witness :
    processRequest (fun _ _ _ => ({} : ComponentResult)) (fun _ _ => false) (fun _ => none)
        1 [] c6Req = some ⟨c6Req, none, none, FlowExit.noFlow⟩
    ∧ (⟨c6Req, none, none, FlowExit.noFlow⟩ : FlowProcessOutcome).response = none
    ∧ (fun _ : HttpRequest => (Except.error "boom" : Except String UpstreamAnswer))
        (⟨c6Req, none, none, FlowExit.noFlow⟩ : FlowProcessOutcome).request
        = Except.error "boom"
    ∧ ([] : List RequestRecord).any (fun x => x.id == c6Req.id) = false
    ∧ (∃ hr, handleRequest (fun _ => Except.error "boom") (fun _ _ _ => {}) (fun _ _ => false)
          (fun _ => none) 1 [] [] c6Req 9 = some hr
        ∧ hr.reply = ClientReply.proxyError 502 "text/plain" ("Proxy Error: " ++ "boom")
        ∧ ∃ rec, RequestStore.getById hr.store c6Req.id = some rec
            ∧ rec.response = none ∧ rec.durationMs = none) := by
  refine ⟨by decide, by decide, rfl, by decide, ?_⟩
  exact upstream_failure_502_bare_record (fun _ => Except.error "boom") (fun _ _ _ => {})
    (fun _ _ => false) (fun _ => none) 1 [] [] c6Req 9 ⟨c6Req, none, none, FlowExit.noFlow⟩
    "boom" (by decide) (by decide) rfl (by decide)

/-! ## Response forwarding and binary safety (`ProxyEngine.forwardRequest`
and `ProxyEngine.sendResponse`) -/

/-- The `responseHeaders` record built in `forwardRequest`'s response
callback: each upstream header (keys already lower-cased by Node, array
values joined to one string) is copied only when its value is truthy
(`if (value)`), so empty-valued headers are dropped. -/
def buildRespHeaders (raw : List (String × String)) : List (String × String) :=
  raw.foldl (fun acc kv => if kv.2 = "" then acc else mapSet acc kv.1 kv.2) []

/-- The content-type textuality test in `forwardRequest`: `text/` prefix, or
json / javascript / xml / x-www-form-urlencoded as a substring. -/
def isTextLikeCT (ct : String) : Bool :=
  strStartsWith ct "text/" || strIncludes ct "json" || strIncludes ct "javascript"
    || strIncludes ct "xml" || strIncludes ct "x-www-form-urlencoded"

/-- `forwardRequest`'s response construction from the upstream status line,
headers and body bytes.  `decode` abstracts `buffer.toString('utf-8')`.  The
`ct`/`ce` lookups model the source's falsy chains
(`h['content-type'] || h['Content-Type'] || ''`); `buildRespHeaders` never
stores an empty value, so a present binding is always truthy. -/
def forwardResponse (decode : List Nat → String) (statusCode : Nat)
    (statusMessage : Option String) (rawHeaders : List (String × String))
    (bytes : List Nat) : UpstreamAnswer :=
  let hs := buildRespHeaders rawHeaders
  let ct := match mapGet hs "content-type" with
    | some v => v
    | none => (mapGet hs "Content-Type").getD ""
  let ce := match mapGet hs "content-encoding" with
    | some v => some v
    | none => mapGet hs "Content-Encoding"
  let textLike := ce.isNone && isTextLikeCT ct
  { response :=
      { statusCode := if statusCode = 0 then 200 else statusCode
        statusMessage := statusMessage
        headers := hs
        body := if textLike then some (decode bytes) else none }
    rawBody := bytes }

/-- The body bytes `ProxyEngine.sendResponse` writes after the head: the raw
buffer is preferred whenever present; only without one is the recorded body
string encoded and written. -/
def sendResponseBytes (encode : String → List Nat) (response : HttpResponse)
    (rawBody : Option (List Nat)) : List Nat :=
  match rawBody with
  | some b => b
  | none =>
    match response.body with
    | some s => encode s
    | none => []

/-- §4.2 "Binary safety" in the spec's words: a content-type is text-like
when it is `text/*` or mentions json, javascript, xml or
x-www-form-urlencoded. -/
def SpecTextLike (ct : String) : Prop :=
  strStartsWith ct "text/" = true ∨ strIncludes ct "json" = true
    ∨ strIncludes ct "javascript" = true ∨ strIncludes ct "xml" = true
    ∨ strIncludes ct "x-www-form-urlencoded" = true

lemma isTextLikeCT_iff (ct : String) : isTextLikeCT ct = true ↔ SpecTextLike ct := by
  unfold isTextLikeCT SpecTextLike
  simp [Bool.or_eq_true, or_assoc]

lemma mem_mapSet {β : Type} (m : List (String × β)) (k : String) (v : β)
    (kv : String × β) (h : kv ∈ mapSet m k v) : kv ∈ m ∨ kv = (k, v) := by
  unfold mapSet at h
  split at h
  · rw [List.mem_map] at h
    obtain ⟨a, ha, heq⟩ := h
    by_cases hak : (a.1 == k) = true
    · rw [if_pos hak] at heq
      right
      rw [← heq]
    · rw [if_neg hak] at heq
      left
      rw [← heq]
      exact ha
  · rw [List.mem_append] at h
    rcases h with h | h
    · left; exact h
    · right
      simpa using h

lemma buildRespHeaders_keys (raw : List (String × String)) (P : String → Prop)
    (h : ∀ kv ∈ raw, P kv.1) : ∀ kv ∈ buildRespHeaders raw, P kv.1 := by
  have hgen : ∀ (l : List (String × String)) (acc : List (String × String)),
      (∀ kv ∈ l, P kv.1) → (∀ kv ∈ acc, P kv.1) →
      ∀ kv ∈ l.foldl (fun acc kv => if kv.2 = "" then acc else mapSet acc kv.1 kv.2) acc,
        P kv.1 := by
    intro l
    induction l with
    | nil =>
      intro acc _ hacc
      simpa using hacc
    | cons a l ih =>
      intro acc hl hacc
      simp only [List.foldl_cons]
      apply ih
      · intro kv hkv
        exact hl kv (List.mem_cons_of_mem _ hkv)
      · intro kv hkv
        by_cases ha : a.2 = ""
        · rw [if_pos ha] at hkv
          exact hacc kv hkv
        · rw [if_neg ha] at hkv
          rcases mem_mapSet acc a.1 a.2 kv hkv with hmem | hk
          · exact hacc kv hmem
          · rw [hk]
            exact hl a (List.mem_cons_self _ _)
  exact hgen raw [] h (by simp)

lemma mapGet_none_of_keys {β : Type} (m : List (String × β)) (k : String)
    (h : ∀ kv ∈ m, kv.1 ≠ k) : mapGet m k = none := by
  unfold mapGet
  have : m.find? (fun kv => kv.1 == k) = none := by
    rw [List.find?_eq_none]
    intro x hx
    simp [h x hx]
  rw [this]
  rfl

/-- C2: for every forwarded response, the body bytes written to the client
equal the body bytes read from upstream (the raw buffer is always passed to
`sendResponse` and always wins over the recorded string); and — given that
Node's header records use lower-case keys — the recorded body string is
populated exactly when the constructed response record has no
`content-encoding` binding and its content-type is text-like in the spec's
sense; non-textual responses leave the recorded body empty. -/
theorem forwarded_bytes_verbatim_and_recorded_body
    (decode : List Nat → String) (encode : String → List Nat)
    (statusCode : Nat) (statusMessage : Option String)
    (rawHeaders : List (String × String)) (bytes : List Nat)
    (hlow : ∀ kv ∈ rawHeaders, strToLower kv.1 = kv.1) :
    sendResponseBytes encode
        (forwardResponse decode statusCode statusMessage rawHeaders bytes).response
        (some (forwardResponse decode statusCode statusMessage rawHeaders bytes).rawBody)
      = bytes
    ∧ ((forwardResponse decode statusCode statusMessage rawHeaders bytes).response.body.isSome
        = true
      ↔ mapGet (forwardResponse decode statusCode statusMessage rawHeaders bytes).response.headers
            "content-encoding" = none
        ∧ SpecTextLike ((mapGet
            (forwardResponse decode statusCode statusMessage rawHeaders bytes).response.headers
            "content-type").getD "")) := by
  constructor
  · rfl
  · have hkeys := buildRespHeaders_keys rawHeaders (fun k => strToLower k = k) hlow
    have hct2 : mapGet (buildRespHeaders rawHeaders) "Content-Type" = none := by
      apply mapGet_none_of_keys
      intro kv hkv heq
      have hk := hkeys kv hkv
      rw [heq] at hk
      exact absurd hk (by decide)
    have hce2 : mapGet (buildRespHeaders rawHeaders) "Content-Encoding" = none := by
      apply mapGet_none_of_keys
      intro kv hkv heq
      have hk := hkeys kv hkv
      rw [heq] at hk
      exact absurd hk (by decide)
    simp only [forwardResponse, hct2, hce2]
    cases hceg : mapGet (buildRespHeaders rawHeaders) "content-encoding" with
    | some v =>
      simp [hceg]
    | none =>
      simp only [hceg, Option.isNone_none, Bool.true_and]
      cases hctg : mapGet (buildRespHeaders rawHeaders) "content-type" with
      | some v =>
        simp only [hctg, Option.getD_some]
        by_cases htl : isTextLikeCT v = true
        · simp [htl, (isTextLikeCT_iff v).mp htl]
        · have hnot : ¬ SpecTextLike v := fun hs => htl ((isTextLikeCT_iff v).mpr hs)
          simp [htl, hnot]
      | none =>
        simp only [hctg, Option.getD_none]
        have h0 : isTextLikeCT "" = false := by decide
        have hnot : ¬ SpecTextLike "" :=
          fun hs => absurd ((isTextLikeCT_iff "").mpr hs) (by decide)
        simp [h0, hnot]

/-- Witness for the byte-fidelity/recorded-body theorem: a textual upstream
response with one empty-valued header. -/
theorem forwarded_bytes_verbatim_witness :
    (∀ kv ∈ ([("content-type", "text/html"), ("x-empty", "")] : List (String × String)),
        strToLower kv.1 = kv.1)
    ∧ sendResponseBytes (fun _ => [])
          (forwardResponse (fun _ => "hi") 200 none
            [("content-type", "text/html"), ("x-empty", "")] [1, 2, 3]).response
          (some (forwardResponse (fun _ => "hi") 200 none
            [("content-type", "text/html"), ("x-empty", "")] [1, 2, 3]).rawBody)
        = [1, 2, 3]
    ∧ ((forwardResponse (fun _ => "hi") 200 none
            [("content-type", "text/html"), ("x-empty", "")] [1, 2, 3]).response.body.isSome
          = true
      ↔ mapGet (forwardResponse (fun _ => "hi") 200 none
            [("content-type", "text/html"), ("x-empty", "")] [1, 2, 3]).response.headers
            "content-encoding" = none
        ∧ SpecTextLike ((mapGet (forwardResponse (fun _ => "hi") 200 none
            [("content-type", "text/html"), ("x-empty", "")] [1, 2, 3]).response.headers
            "content-type").getD "")) := by
  have hlow : ∀ kv ∈ ([("content-type", "text/html"), ("x-empty", "")] : List (String × String)),
      strToLower kv.1 = kv.1 := by decide
  have h := forwarded_bytes_verbatim_and_recorded_body (fun _ => "hi") (fun _ => []) 200 none
    [("content-type", "text/html"), ("x-empty", "")] [1, 2, 3] hlow
  exact ⟨hlow, h.1, h.2⟩

/-! ## Component store (`src/main/store/componentStore.ts`) -/

inductive ComponentType where
  | builtin
  | script
deriving Repr, DecidableEq

/-- `ComponentDefinition`, restricted to the fields the store's save/delete
guards read (id, display name, kind, builtin handler name, script text);
parameter schemas are irrelevant to the protection invariant. -/
structure ComponentDefinition where
  id : String
  name : String
  type : ComponentType
  internalName : Option String := none
  scriptCode : Option String := none
deriving Repr, DecidableEq

namespace ComponentStore

/-- The ids/kinds of `BUILTIN_COMPONENTS` (all 18 entries). -/
def builtinComponents : List ComponentDefinition :=
  [⟨"header-rewrite", "Header Rewrite", .builtin, some "headerRewrite", none⟩,
   ⟨"mock-response", "Mock Response", .builtin, some "mockResponse", none⟩,
   ⟨"delay", "Delay", .builtin, some "delay", none⟩,
   ⟨"url-host-rewrite", "URL Host Rewrite", .builtin, some "urlHostRewrite", none⟩,
   ⟨"url-query-params", "URL Query Params", .builtin, some "urlQueryParams", none⟩,
   ⟨"upstream-host", "Upstream Host Override", .builtin, some "upstreamHost", none⟩,
   ⟨"json-body-modify", "JSON Body Modify", .builtin, some "jsonBodyModify", none⟩,
   ⟨"response-override", "Response Override", .builtin, some "responseOverride", none⟩,
   ⟨"header-copy", "Header Copy", .builtin, some "headerCopy", none⟩,
   ⟨"cookie-inject", "Cookie Inject", .builtin, some "cookieInject", none⟩,
   ⟨"auth-inject", "Auth Inject", .builtin, some "authInject", none⟩,
   ⟨"bandwidth-throttle", "Bandwidth Throttle", .builtin, some "bandwidthThrottle", none⟩,
   ⟨"random-failure", "Random Failure", .builtin, some "randomFailure", none⟩,
   ⟨"retry-hint", "Retry Hint", .builtin, some "retryHint", none⟩,
   ⟨"cors-allow-all", "CORS Allow All", .builtin, some "corsAllowAll", none⟩,
   ⟨"static-local-file", "Static Local File", .builtin, some "staticLocalFile", none⟩,
   ⟨"log-message", "Log Message", .builtin, some "logMessage", none⟩,
   ⟨"tag-request", "Tag Request", .builtin, some "tagRequest", none⟩]

/-- The store's map after `loadBuiltins()` (no custom component files). -/
def initialStore : List (String × ComponentDefinition) :=
  builtinComponents.foldl (fun st c => mapSet st c.id c) []

/-- `ComponentStore.getById`. -/
def getById (st : List (String × ComponentDefinition)) (id : String) :
    Option ComponentDefinition :=
  mapGet st id

/-- `ComponentStore.save`: throws only when the existing entry is a builtin
AND the incoming component's type is not `'builtin'`
(`existing?.type === 'builtin' && component.type !== 'builtin'`); otherwise
it sets the map entry.  (Persisting script components to disk is an effect
outside the map and is not modelled.) -/
def save (st : List (String × ComponentDefinition)) (c : ComponentDefinition) :
    Except String (List (String × ComponentDefinition)) :=
  let existingIsBuiltin := match mapGet st c.id with
    | some e => e.type == ComponentType.builtin
    | none => false
  if existingIsBuiltin && !(c.type == ComponentType.builtin) then
    Except.error "Cannot overwrite builtin component"
  else
    Except.ok (mapSet st c.id c)

/-- `ComponentStore.delete`: throws when the entry is a builtin, before any
mutation; otherwise removes the map entry (and its file, not modelled). -/
def delete (st : List (String × ComponentDefinition)) (id : String) :
    Except String (List (String × ComponentDefinition)) :=
  match mapGet st id with
  | some e =>
    if e.type == ComponentType.builtin then
      Except.error "Cannot delete builtin component"
    else
      Except.ok (mapDelete st id)
  | none => Except.ok (mapDelete st id)

end ComponentStore

/-- C7 as stated: whenever the id names an existing builtin, `save` raises
(leaving the builtin unchanged), and `delete` of a builtin id raises. -/
def ClaimC7Statement : Prop :=
  (∀ (st : List (String × ComponentDefinition)) (c b : ComponentDefinition),
      mapGet st c.id = some b → b.type = ComponentType.builtin →
      ComponentStore.save st c = Except.error "Cannot overwrite builtin component")
  ∧ (∀ (st : List (String × ComponentDefinition)) (id : String) (b : ComponentDefinition),
      mapGet st id = some b → b.type = ComponentType.builtin →
      ComponentStore.delete st id = Except.error "Cannot delete builtin component")

/-- A user-supplied definition that reuses a builtin id and marks itself
`builtin`. -/
def evilComponent : ComponentDefinition :=
  { id := "header-rewrite", name := "Evil", type := .builtin,
    internalName := some "mockResponse" }

/-- C7 fails as stated: a save whose payload claims `type: 'builtin'` passes
the guard and replaces the builtin entry in the store's map. -/
theorem builtin_protection_counterexample : ¬ ClaimC7Statement := by
  intro hclaim
  have herr := hclaim.1 ComponentStore.initialStore evilComponent
    ⟨"header-rewrite", "Header Rewrite", .builtin, some "headerRewrite", none⟩ rfl rfl
  have hok : ComponentStore.save ComponentStore.initialStore evilComponent
      = Except.ok (mapSet ComponentStore.initialStore "header-rewrite" evilComponent) := rfl
  rw [hok] at herr
  cases herr

/-- C7 (amended): `save` raises — leaving the store unchanged — exactly for
non-builtin payloads whose id names an existing builtin (a payload marked
`builtin` slips through the guard); `delete` of a builtin id always raises
before removing anything. -/
theorem builtin_protection_amended :
    (∀ (st : List (String × ComponentDefinition)) (c b : ComponentDefinition),
        mapGet st c.id = some b → b.type = ComponentType.builtin →
        c.type ≠ ComponentType.builtin →
        ComponentStore.save st c = Except.error "Cannot overwrite builtin component")
    ∧ (∀ (st : List (String × ComponentDefinition)) (id : String) (b : ComponentDefinition),
        mapGet st id = some b → b.type = ComponentType.builtin →
        ComponentStore.delete st id = Except.error "Cannot delete builtin component") := by
  constructor
  · intro st c b hget hb hc
    unfold ComponentStore.save
    simp only [hget]
    have h1 : (b.type == ComponentType.builtin) = true := by rw [hb]; rfl
    have h2 : (c.type == ComponentType.builtin) = false := by
      cases hc' : c.type with
      | builtin => exact absurd hc' hc
      | script => rfl
    simp [h1, h2]
  · intro st id b hget hb
    unfold ComponentStore.delete
    simp only [hget]
    have h1 : (b.type == ComponentType.builtin) = true := by rw [hb]; rfl
    simp [h1]

/-- Witness: on the freshly-loaded store, saving a script under the id
`header-rewrite` and deleting `header-rewrite` both raise. -/
theorem builtin_protection_witness :
    mapGet ComponentStore.initialStore "header-rewrite"
        = some ⟨"header-rewrite", "Header Rewrite", .builtin, some "headerRewrite", none⟩
    ∧ ComponentStore.save ComponentStore.initialStore
        { id := "header-rewrite", name := "My Script", type := .script,
          scriptCode := some "return {};" }
        = Except.error "Cannot overwrite builtin component"
    ∧ ComponentStore.delete ComponentStore.initialStore "header-rewrite"
        = Except.error "Cannot delete builtin component" := by
  refine ⟨rfl, ?_, ?_⟩
  · exact builtin_protection_amended.1 ComponentStore.initialStore
      { id := "header-rewrite", name := "My Script", type := .script,
        scriptCode := some "return {};" }
      ⟨"header-rewrite", "Header Rewrite", .builtin, some "headerRewrite", none⟩
      rfl rfl (by decide)
  · exact builtin_protection_amended.2 ComponentStore.initialStore "header-rewrite"
      ⟨"header-rewrite", "Header Rewrite", .builtin, some "headerRewrite", none⟩ rfl rfl

/-! ## Certificate manager (`CertManager` in `src/main/proxy/certManager.ts`) -/

/-- Splitting a character list on a separator (JS `split` semantics). -/
def splitSepAux (sep : Char) (cur : List Char) : List Char → List (List Char)
  | [] => [cur.reverse]
  | c :: rest =>
    if c = sep then cur.reverse :: splitSepAux sep [] rest
    else splitSepAux sep (c :: cur) rest

/-- The regex `^\d+\.\d+\.\d+\.\d+$` of `generateHostCertificate`: exactly
four non-empty all-digit groups separated by dots. -/
def isIPv4Literal (s : String) : Bool :=
  match splitSepAux '.' [] s.data with
  | [a, b, c, d] =>
    !a.isEmpty && a.all Char.isDigit && !b.isEmpty && b.all Char.isDigit
      && !c.isEmpty && c.all Char.isDigit && !d.isEmpty && d.all Char.isDigit
  | _ => false

/-- A minted leaf certificate, restricted to the attributes the claim is
about: subject common name, SAN entries, validity, issuer.  Key material and
the signature are crypto effects; `signedByRootCA` records that
`cert.sign(this.caKey, ...)` ran with the root's key. -/
structure LeafCert where
  commonName : String
  sanDNS : List String
  sanIP : List String
  validityYears : Nat
  signedByRootCA : Bool
deriving Repr, DecidableEq

namespace CertManager

/-- `CertManager.generateHostCertificate`: CN = hostname, one DNS SAN for the
hostname, an IP SAN when the hostname is a literal IPv4, one year validity,
signed by the CA. -/
def generateHostCertificate (hostname : String) : LeafCert :=
  { commonName := hostname
    sanDNS := [hostname]
    sanIP := if isIPv4Literal hostname then [hostname] else []
    validityYears := 1
    signedByRootCA := true }

/-- `CertManager.getCertificateForHost`: cache hit returns the cached leaf,
miss mints, installs and returns. -/
def getCertificateForHost (cache : List (String × LeafCert)) (hostname : String) :
    List (String × LeafCert) × LeafCert :=
  match mapGet cache hostname with
  | some c => (cache, c)
  | none => (mapSet cache hostname (generateHostCertificate hostname),
             generateHostCertificate hostname)

/-- The cache after a sequence of `getCertificateForHost` calls, starting
empty (as after `initCA`). -/
def cacheAfter (requests : List String) : List (String × LeafCert) :=
  requests.foldl (fun st h => (getCertificateForHost st h).1) []

end CertManager

lemma mapGet_some_elim {β : Type} (m : List (String × β)) (k : String) (v : β)
    (h : mapGet m k = some v) : ∃ kv ∈ m, kv.1 = k ∧ kv.2 = v := by
  unfold mapGet at h
  cases hf : m.find? (fun kv => kv.1 == k) with
  | none => rw [hf] at h; cases h
  | some kv =>
    rw [hf] at h
    have hmem := List.mem_of_find?_eq_some hf
    have hpred := List.find?_some hf
    exact ⟨kv, hmem, by simpa using hpred, by simpa using h⟩

lemma certCache_invariant (st : List (String × LeafCert)) (h : String)
    (hinv : ∀ kv ∈ st, kv.2 = CertManager.generateHostCertificate kv.1) :
    ∀ kv ∈ (CertManager.getCertificateForHost st h).1,
      kv.2 = CertManager.generateHostCertificate kv.1 := by
  unfold CertManager.getCertificateForHost
  cases hg : mapGet st h with
  | some c => simpa using hinv
  | none =>
    intro kv hkv
    rcases mem_mapSet st h (CertManager.generateHostCertificate h) kv hkv with hm | hk
    · exact hinv kv hm
    · rw [hk]

lemma certCacheAfter_invariant (requests : List String) :
    ∀ kv ∈ CertManager.cacheAfter requests,
      kv.2 = CertManager.generateHostCertificate kv.1 := by
  have hgen : ∀ (reqs : List String) (st : List (String × LeafCert)),
      (∀ kv ∈ st, kv.2 = CertManager.generateHostCertificate kv.1) →
      ∀ kv ∈ reqs.foldl (fun st h => (CertManager.getCertificateForHost st h).1) st,
        kv.2 = CertManager.generateHostCertificate kv.1 := by
    intro reqs
    induction reqs with
    | nil => intro st hst; simpa using hst
    | cons h rest ih =>
      intro st hst
      simp only [List.foldl_cons]
      exact ih _ (certCache_invariant st h hst)
  exact hgen requests [] (by simp)

/-- C8: every certificate `getCertificateForHost` returns — from any cache
state reachable by a sequence of lookups starting empty — is exactly the
leaf minted for the requested hostname: CN = hostname, a DNS SAN covering
the hostname, an IP SAN exactly when the hostname is a literal IPv4, one
year validity, signed by the root; and a cache hit returns the cached leaf
without touching the cache. -/
theorem leaf_certificate_matches_hostname :
    (∀ (requests : List String) (hostname : String),
        (CertManager.getCertificateForHost (CertManager.cacheAfter requests) hostname).2
          = CertManager.generateHostCertificate hostname)
    ∧ (∀ hostname : String,
        (CertManager.generateHostCertificate hostname).commonName = hostname
        ∧ (CertManager.generateHostCertificate hostname).sanDNS = [hostname]
        ∧ (CertManager.generateHostCertificate hostname).sanIP
            = (if isIPv4Literal hostname then [hostname] else [])
        ∧ (CertManager.generateHostCertificate hostname).validityYears = 1
        ∧ (CertManager.generateHostCertificate hostname).signedByRootCA = true)
    ∧ (∀ (st : List (String × LeafCert)) (hostname : String) (c : LeafCert),
        mapGet st hostname = some c →
        CertManager.getCertificateForHost st hostname = (st, c)) := by
  refine ⟨?_, ?_, ?_⟩
  · intro requests hostname
    unfold CertManager.getCertificateForHost
    cases hg : mapGet (CertManager.cacheAfter requests) hostname with
    | some c =>
      obtain ⟨kv, hmem, hkey, hval⟩ := mapGet_some_elim _ _ _ hg
      have := certCacheAfter_invariant requests kv hmem
      simp only []
      rw [← hval, this, hkey]
    | none => rfl
  · intro hostname
    exact ⟨rfl, rfl, rfl, rfl, rfl⟩
  · intro st hostname c hget
    unfold CertManager.getCertificateForHost
    rw [hget]

/-- Witness for the cache-hit clause of the leaf-certificate theorem. -/
theorem leaf_certificate_matches_hostname_witness :
    mapGet [("a.test", CertManager.generateHostCertificate "a.test")] "a.test"
        = some (CertManager.generateHostCertificate "a.test")
    ∧ CertManager.getCertificateForHost
        [("a.test", CertManager.generateHostCertificate "a.test")] "a.test"
        = ([("a.test", CertManager.generateHostCertificate "a.test")],
           CertManager.generateHostCertificate "a.test") := by
  refine ⟨rfl, ?_⟩
  exact leaf_certificate_matches_hostname.2.2 _ "a.test" _ rfl

/-! ## The header-rewrite builtin (`headerRewrite` in
`src/main/components/builtins.ts`) -/

/-- JS `String.prototype.trim`, for ASCII whitespace. -/
def jsTrim (s : String) : String :=
  String.mk (((s.data.dropWhile Char.isWhitespace).reverse.dropWhile
    Char.isWhitespace).reverse)

/-- `String(x).split(',').map(s => s.trim()).filter(Boolean)` — the
comma-separated-names parser used by `headerRewrite`. -/
def splitCsv (s : String) : List String :=
  ((splitSepAux ',' [] s.data).map (fun l => jsTrim (String.mk l))).filter
    (fun t => !(t == ""))

/-- The parameters of the `headerRewrite` builtin (new parameterized fields
plus the legacy JSON-schema fields). -/
structure HeaderRewriteConfig where
  addHeaderName : Option String := none
  addHeaderValue : Option String := none
  removeHeaderNames : Option String := none
  setHeaders : Option (List (String × String)) := none
  removeHeaders : Option (List String) := none
deriving Repr, DecidableEq

/-- JS truthiness of an optional string (`undefined` and `""` are falsy). -/
def strTruthy : Option String → Bool
  | some s => !(s == "")
  | none => false

/-- The `headerRewrite` builtin's effect on the request headers (the handler
copies `ctx.request.headers`, mutates the copy and returns it inside a
replacement request): set the lower-cased added header when
`config.addHeaderName && config.addHeaderValue !== undefined`; delete each
lower-cased name parsed from `removeHeaderNames`; then the legacy
`setHeaders` / `removeHeaders` passes. -/
def headerRewrite (config : HeaderRewriteConfig) (headers : List (String × String)) :
    List (String × String) :=
  let h1 := if strTruthy config.addHeaderName && config.addHeaderValue.isSome then
      mapSet headers (strToLower (config.addHeaderName.getD ""))
        (config.addHeaderValue.getD "")
    else headers
  let h2 := if strTruthy config.removeHeaderNames then
      (splitCsv (config.removeHeaderNames.getD "")).foldl
        (fun acc n => mapDelete acc (strToLower n)) h1
    else h1
  let h3 := match config.setHeaders with
    | some kvs => kvs.foldl (fun acc kv => mapSet acc (strToLower kv.1) kv.2) h2
    | none => h2
  let h4 := match config.removeHeaders with
    | some ks => ks.foldl (fun acc k => mapDelete acc (strToLower k)) h3
    | none => h3
  h4

/-- The configuration of C9: add header `H` with value `V` and remove `H` in
the same call. -/
def addRemoveCfg (H V : String) : HeaderRewriteConfig :=
  { addHeaderName := some H, addHeaderValue := some V, removeHeaderNames := some H }

/-- C9 as stated: the add-then-remove call is idempotent AND returns the
headers to their pre-call state, for every starting header map. -/
def ClaimC9Statement : Prop :=
  ∀ (H V : String) (headers : List (String × String)),
    headerRewrite (addRemoveCfg H V) (headerRewrite (addRemoveCfg H V) headers)
      = headerRewrite (addRemoveCfg H V) headers
    ∧ headerRewrite (addRemoveCfg H V) headers = headers

/-- C9 fails as stated: when the header is already present, add-then-remove
deletes it, so the pre-call state is not restored. -/
theorem header_rewrite_roundtrip_counterexample : ¬ ClaimC9Statement := by
  intro hclaim
  have h2 := (hclaim "X-Debug" "1" [("x-debug", "old")]).2
  have hcomp : headerRewrite (addRemoveCfg "X-Debug" "1") [("x-debug", "old")] = [] := by
    decide
  rw [hcomp] at h2
  cases h2

lemma foldl_mapDelete_eq_filter (ns : List String) (m : List (String × String)) :
    ns.foldl (fun acc n => mapDelete acc (strToLower n)) m
      = m.filter (fun kv => ns.all (fun n => kv.1 != strToLower n)) := by
  induction ns generalizing m with
  | nil => simp
  | cons n tl ih =>
    simp only [List.foldl_cons]
    rw [ih]
    unfold mapDelete
    rw [List.filter_filter]
    apply List.filter_congr
    intro kv _
    simp [Bool.and_comm]

lemma mapSet_any_key {β : Type} (m : List (String × β)) (k : String) (v : β) :
    (mapSet m k v).any (fun kv => kv.1 == k) = true := by
  unfold mapSet
  split
  · rename_i hany
    rw [List.any_eq_true] at hany ⊢
    obtain ⟨a, ha, hpa⟩ := hany
    refine ⟨(k, v), ?_, by simp⟩
    rw [List.mem_map]
    exact ⟨a, ha, by rw [if_pos hpa]⟩
  · rw [List.any_eq_true]
    exact ⟨(k, v), by simp, by simp⟩

lemma mapSet_key_val {β : Type} (m : List (String × β)) (k : String) (v : β) :
    ∀ kv ∈ mapSet m k v, kv.1 = k → kv.2 = v := by
  unfold mapSet
  split
  · intro kv hkv hk
    rw [List.mem_map] at hkv
    obtain ⟨a, ha, heq⟩ := hkv
    by_cases hak : (a.1 == k) = true
    · rw [if_pos hak] at heq
      rw [← heq]
    · rw [if_neg hak] at heq
      rw [← heq] at hk
      exact absurd (by simpa using hk) (by simpa using hak)
  · rename_i hany
    intro kv hkv hk
    rw [List.mem_append] at hkv
    rcases hkv with hm | hs
    · exfalso
      apply hany
      rw [List.any_eq_true]
      exact ⟨kv, hm, by simp [hk]⟩
    · simp only [List.mem_singleton] at hs
      rw [hs]

lemma mapSet_eq_self {β : Type} (m : List (String × β)) (k : String) (v : β)
    (hval : ∀ kv ∈ m, kv.1 = k → kv.2 = v)
    (hany : m.any (fun kv => kv.1 == k) = true) : mapSet m k v = m := by
  unfold mapSet
  rw [if_pos hany]
  have hpt : ∀ a ∈ m, (if a.1 == k then (k, v) else a) = a := by
    intro a ha
    obtain ⟨a1, a2⟩ := a
    by_cases hak : (a1 == k) = true
    · rw [if_pos hak]
      have h1 : a1 = k := by simpa using hak
      have h2 : a2 = v := hval (a1, a2) ha h1
      rw [h1, h2]
    · rw [if_neg hak]
  calc m.map (fun a => if a.1 == k then (k, v) else a)
      = m.map id := List.map_congr_left hpt
    _ = m := List.map_id m

lemma mapSet_append {β : Type} (m : List (String × β)) (k : String) (v : β)
    (h : m.any (fun kv => kv.1 == k) = false) : mapSet m k v = m ++ [(k, v)] := by
  unfold mapSet
  rw [h]
  simp

lemma mapGet_none_any_false {β : Type} (m : List (String × β)) (k : String)
    (h : mapGet m k = none) : m.any (fun kv => kv.1 == k) = false := by
  unfold mapGet at h
  cases hf : m.find? (fun kv => kv.1 == k) with
  | some kv => rw [hf] at h; cases h
  | none =>
    rw [List.find?_eq_none] at hf
    rw [List.any_eq_false]
    intro x hx
    simpa using hf x hx

lemma filter_key_any {β : Type} (m : List (String × β)) (qk : String → Bool)
    (k : String) (hqk : qk k = true)
    (hany : m.any (fun kv => kv.1 == k) = true) :
    (m.filter (fun kv => qk kv.1)).any (fun kv => kv.1 == k) = true := by
  rw [List.any_eq_true] at hany ⊢
  obtain ⟨a, ha, hpa⟩ := hany
  refine ⟨a, ?_, hpa⟩
  rw [List.mem_filter]
  refine ⟨ha, ?_⟩
  have hak : a.1 = k := by simpa using hpa
  rw [hak]
  exact hqk

lemma filter_key_none {β : Type} (m : List (String × β)) (qk : String → Bool)
    (k : String) (hqk : qk k = false) :
    (m.filter (fun kv => qk kv.1)).any (fun kv => kv.1 == k) = false := by
  rw [List.any_eq_false]
  intro kv hkv
  rw [List.mem_filter] at hkv
  intro hpa
  have hak : kv.1 = k := by simpa using hpa
  rw [hak] at hkv
  rw [hqk] at hkv
  exact absurd hkv.2 (by simp)

lemma headerRewrite_addRemove_empty (V : String) (headers : List (String × String)) :
    headerRewrite (addRemoveCfg "" V) headers = headers := by
  simp [headerRewrite, addRemoveCfg, strTruthy]

lemma headerRewrite_addRemove_eq (H V : String) (hH : ¬ H = "")
    (headers : List (String × String)) :
    headerRewrite (addRemoveCfg H V) headers
      = (mapSet headers (strToLower H) V).filter
          (fun kv => (splitCsv H).all (fun n => kv.1 != strToLower n)) := by
  unfold headerRewrite addRemoveCfg
  have hb : (H == "") = false := by simpa using hH
  simp only [strTruthy, hb, Bool.not_false, Option.isSome_some, Bool.and_true,
    Option.getD_some, if_true]
  rw [foldl_mapDelete_eq_filter]

/-- C9 (amended): the add-then-remove header-rewrite call is idempotent for
every header name, value and starting map; and it returns the headers to
their pre-call state whenever the name is a plain token (`splitCsv H = [H]`)
and the lower-cased header is absent from the incoming map.  When the header
is present beforehand, add-then-remove deletes it instead of restoring it. -/
theorem header_rewrite_idempotent_restores_when_absent :
    (∀ (H V : String) (headers : List (String × String)),
        headerRewrite (addRemoveCfg H V) (headerRewrite (addRemoveCfg H V) headers)
          = headerRewrite (addRemoveCfg H V) headers)
    ∧ (∀ (H V : String) (headers : List (String × String)),
        splitCsv H = [H] → mapGet headers (strToLower H) = none →
        headerRewrite (addRemoveCfg H V) headers = headers) := by
  constructor
  · intro H V headers
    by_cases hH : H = ""
    · subst hH
      rw [headerRewrite_addRemove_empty, headerRewrite_addRemove_empty]
    · rw [headerRewrite_addRemove_eq H V hH, headerRewrite_addRemove_eq H V hH]
      by_cases hqk : ((fun key => (splitCsv H).all (fun n => key != strToLower n))
          (strToLower H)) = true
      · have hany1 := mapSet_any_key headers (strToLower H) V
        have hval1 := mapSet_key_val headers (strToLower H) V
        have hany2 := filter_key_any (mapSet headers (strToLower H) V)
          (fun key => (splitCsv H).all (fun n => key != strToLower n))
          (strToLower H) hqk hany1
        have hval2 : ∀ kv ∈ (mapSet headers (strToLower H) V).filter
            (fun kv => (splitCsv H).all (fun n => kv.1 != strToLower n)),
            kv.1 = strToLower H → kv.2 = V :=
          fun kv hkv => hval1 kv (List.mem_of_mem_filter hkv)
        rw [mapSet_eq_self _ _ _ hval2 hany2]
        rw [List.filter_filter]
        apply List.filter_congr
        intro kv _
        simp
      · have hqk' : ((fun key => (splitCsv H).all (fun n => key != strToLower n))
            (strToLower H)) = false := by
          simpa using hqk
        have hany2 := filter_key_none (mapSet headers (strToLower H) V)
          (fun key => (splitCsv H).all (fun n => key != strToLower n))
          (strToLower H) hqk'
        rw [mapSet_append _ _ _ hany2]
        rw [List.filter_append]
        have hsingle : ([(strToLower H, V)] : List (String × String)).filter
            (fun kv => (splitCsv H).all (fun n => kv.1 != strToLower n)) = [] := by
          simp only [List.filter]
          rw [show ((splitCsv H).all (fun n => (strToLower H, V).1 != strToLower n))
            = false from hqk']
        rw [hsingle, List.append_nil]
        rw [List.filter_filter]
        apply List.filter_congr
        intro kv _
        simp
  · intro H V headers hsplit hget
    have hH : ¬ H = "" := by
      intro h
      subst h
      have hnil : splitCsv "" = [] := by decide
      rw [hnil] at hsplit
      cases hsplit
    rw [headerRewrite_addRemove_eq H V hH, hsplit]
    have hanyh := mapGet_none_any_false headers (strToLower H) hget
    rw [mapSet_append _ _ _ hanyh, List.filter_append]
    have hsingle : ([(strToLower H, V)] : List (String × String)).filter
        (fun kv => [H].all (fun n => kv.1 != strToLower n)) = [] := by
      simp
    rw [hsingle, List.append_nil]
    rw [List.filter_eq_self]
    intro kv hkv
    rw [List.any_eq_false] at hanyh
    have := hanyh kv hkv
    simp only [List.all_cons, List.all_nil, Bool.and_true]
    simpa using this

/-- Witness for the idempotence/restoration theorem: a plain header name
absent from the incoming map. -/
theorem header_rewrite_idempotent_restores_witness :
    splitCsv "X-Debug" = ["X-Debug"]
    ∧ mapGet [("other", "1")] (strToLower "X-Debug") = none
    ∧ headerRewrite (addRemoveCfg "X-Debug" "1")
        (headerRewrite (addRemoveCfg "X-Debug" "1") [("other", "1")])
      = headerRewrite (addRemoveCfg "X-Debug" "1") [("other", "1")]
    ∧ headerRewrite (addRemoveCfg "X-Debug" "1") [("other", "1")] = [("other", "1")] := by
  refine ⟨by decide, rfl, ?_, ?_⟩
  · exact header_rewrite_idempotent_restores_when_absent.1 "X-Debug" "1" [("other", "1")]
  · exact header_rewrite_idempotent_restores_when_absent.2 "X-Debug" "1" [("other", "1")]
      (by decide) rfl

/-! ## The per-host MITM listener table
(`ProxyEngine.getOrCreateHttpsMitmPort`, `ProxyEngine.handleConnect`,
`ProxyEngine.buildHttpsHttpRequest`) -/

/-- One entry of `httpsMitmServers`.  `localPort` is the ephemeral port the
local TLS listener bound; `capturedTargetPort` is the `targetPort` argument
that was baked into the listener's request-handler closure
(`handleHttpsRequest(hostname, targetPort, ...)`) when the entry was
created. -/
structure MitmEntry where
  localPort : Nat
  capturedTargetPort : Nat
deriving Repr, DecidableEq

/-- `ProxyEngine.getOrCreateHttpsMitmPort`: the table is keyed by hostname
alone; an existing entry is returned as-is (its captured target port
included), a missing one is created from the current CONNECT's target
port. -/
def getOrCreateHttpsMitmPort (servers : List (String × MitmEntry)) (hostname : String)
    (targetPort freshLocalPort : Nat) : List (String × MitmEntry) × MitmEntry :=
  match mapGet servers hostname with
  | some e => (servers, e)
  | none => (mapSet servers hostname ⟨freshLocalPort, targetPort⟩,
             ⟨freshLocalPort, targetPort⟩)

/-- The URL reconstruction in `ProxyEngine.buildHttpsHttpRequest`:
`https://<host>[:port]/<path>`, with the port omitted when it is 443 (or 0,
which is falsy in the source's `targetPort && targetPort !== 443`). -/
def buildHttpsUrl (hostname : String) (targetPort : Nat) (rawPath : String) : String :=
  let pathWithSlash := if strStartsWith rawPath "/" then rawPath else "/" ++ rawPath
  let portPart := if targetPort != 0 && targetPort != 443
    then ":" ++ toString targetPort else ""
  "https://" ++ hostname ++ portPart ++ pathWithSlash

lemma mapGet_mapSet_self {β : Type} : ∀ (m : List (String × β)) (k : String) (v : β),
    mapGet (mapSet m k v) k = some v := by
  intro m k v
  induction m with
  | nil =>
    unfold mapSet mapGet
    simp
  | cons a tl ih =>
    by_cases hak : (a.1 == k) = true
    · have hany : ((a :: tl).any fun kv => kv.1 == k) = true := by
        rw [List.any_cons, hak]
        simp
      unfold mapSet
      rw [if_pos hany]
      unfold mapGet
      simp only [List.map_cons]
      rw [if_pos hak, List.find?_cons]
      simp
    · have hfa : (a.1 == k) = false := Bool.eq_false_iff.mpr hak
      have hcomm : mapSet (a :: tl) k v = a :: mapSet tl k v := by
        unfold mapSet
        by_cases htl : (tl.any fun kv => kv.1 == k) = true
        · have hany : ((a :: tl).any fun kv => kv.1 == k) = true := by
            rw [List.any_cons, htl]
            simp
          rw [if_pos hany, if_pos htl]
          simp only [List.map_cons]
          rw [if_neg hak]
        · have hft : (tl.any fun kv => kv.1 == k) = false := Bool.eq_false_iff.mpr htl
          have hany : ((a :: tl).any fun kv => kv.1 == k) = false := by
            rw [List.any_cons, hfa, hft]
            rfl
          rw [if_neg (by simp [hany]), if_neg (by simp [hft])]
          simp
      rw [hcomm]
      unfold mapGet
      rw [List.find?_cons]
      rw [show ((a.1 == k)) = false from hfa]
      exact ih

/-- C10: the MITM listener table is keyed by hostname alone and an entry is
never replaced: a lookup that hits returns the cached entry and leaves the
table unchanged, so after a CONNECT to `host:p1` created the listener, a
later CONNECT to `host:p2` reuses it and the decrypted inner requests are
reconstructed with target port `p1`, not `p2`. -/
theorem mitm_listener_keyed_by_host_only :
    (∀ (servers : List (String × MitmEntry)) (hostname : String) (tp lp : Nat)
        (e : MitmEntry), mapGet servers hostname = some e →
        getOrCreateHttpsMitmPort servers hostname tp lp = (servers, e))
    ∧ (∀ (st0 : List (String × MitmEntry)) (h : String) (p1 p2 lp1 lp2 : Nat),
        mapGet st0 h = none →
        ((getOrCreateHttpsMitmPort (getOrCreateHttpsMitmPort st0 h p1 lp1).1 h p2 lp2).1
            = (getOrCreateHttpsMitmPort st0 h p1 lp1).1
          ∧ (getOrCreateHttpsMitmPort
              (getOrCreateHttpsMitmPort st0 h p1 lp1).1 h p2 lp2).2.capturedTargetPort = p1
          ∧ ∀ rawPath, buildHttpsUrl h
              (getOrCreateHttpsMitmPort
                (getOrCreateHttpsMitmPort st0 h p1 lp1).1 h p2 lp2).2.capturedTargetPort
              rawPath = buildHttpsUrl h p1 rawPath)) := by
  constructor
  · intro servers hostname tp lp e hget
    unfold getOrCreateHttpsMitmPort
    rw [hget]
  · intro st0 h p1 p2 lp1 lp2 hnone
    have hstep1 : getOrCreateHttpsMitmPort st0 h p1 lp1
        = (mapSet st0 h ⟨lp1, p1⟩, ⟨lp1, p1⟩) := by
      unfold getOrCreateHttpsMitmPort
      rw [hnone]
    rw [hstep1]
    have hstep2 : getOrCreateHttpsMitmPort (mapSet st0 h ⟨lp1, p1⟩) h p2 lp2
        = (mapSet st0 h ⟨lp1, p1⟩, ⟨lp1, p1⟩) := by
      unfold getOrCreateHttpsMitmPort
      rw [mapGet_mapSet_self]
    rw [hstep2]
    exact ⟨rfl, rfl, fun _ => rfl⟩

/-- Witness for the MITM-table theorem: CONNECT to `secure.test:8443` creates
the listener; CONNECT to `secure.test:9443` reuses it with captured port
8443. -/
theorem mitm_listener_keyed_by_host_only_witness :
    mapGet ([] : List (String × MitmEntry)) "secure.test" = none
    ∧ mapGet [("secure.test", (⟨40001, 8443⟩ : MitmEntry))] "secure.test"
        = some (⟨40001, 8443⟩ : MitmEntry)
    ∧ getOrCreateHttpsMitmPort [("secure.test", (⟨40001, 8443⟩ : MitmEntry))]
        "secure.test" 9443 40002
      = ([("secure.test", (⟨40001, 8443⟩ : MitmEntry))], (⟨40001, 8443⟩ : MitmEntry))
    ∧ (getOrCreateHttpsMitmPort
        (getOrCreateHttpsMitmPort ([] : List (String × MitmEntry)) "secure.test" 8443 40001).1
        "secure.test" 9443 40002).2.capturedTargetPort = 8443 := by
  refine ⟨rfl, rfl, ?_, ?_⟩
  · exact mitm_listener_keyed_by_host_only.1
      [("secure.test", (⟨40001, 8443⟩ : MitmEntry))] "secure.test" 9443 40002
      (⟨40001, 8443⟩ : MitmEntry) rfl
  · exact (mitm_listener_keyed_by_host_only.2
      ([] : List (String × MitmEntry)) "secure.test" 8443 9443 40001 40002 rfl).2.1

/-! ## The script sandbox (`executeScriptComponent` in
`src/main/components/scriptRunner.ts`) -/

inductive ScriptBinding where
  | param
  | outer
deriving Repr, DecidableEq

/-- The parameters of the eval'd wrapper,
`(async function(config, ctx, console) { <script> ... })`. -/
def wrappedParams : List String := ["config", "ctx", "console"]

/-- The sandbox properties actually passed at the call site,
`fn(sandbox.config, sandbox.ctx, sandbox.console)`. -/
def sandboxArgsPassed : List String := ["config", "ctx", "console"]

/-- The properties of the `sandbox` object literal; `false` marks the ones
explicitly set to `undefined` (`setTimeout`, `setInterval`, `fetch`,
`require`). -/
def sandboxObjectProps : List (String × Bool) :=
  [("config", true), ("ctx", true), ("console", true),
   ("setTimeout", false), ("setInterval", false), ("fetch", false), ("require", false)]

/-- Modelled from the JS runtime: identifier resolution inside the eval'd
wrapper.  A free name resolves to a wrapper parameter when it is one of the
three declared parameters, otherwise to the enclosing module/global scope
that the `eval` closure captured; only a name found in neither is
unavailable to the script. -/
def scriptResolve (ambientScope : List String) (name : String) : Option ScriptBinding :=
  if wrappedParams.contains name then some .param
  else if ambientScope.contains name then some .outer
  else none

/-- Modelled from the Node.js runtime: ambient names in scope of the CommonJS
module in which `executeScriptComponent`'s `eval` runs — the module
wrapper's `require`/`module`/`exports` plus globals including the timers,
`fetch` and `process`. -/
def nodeAmbientScope : List String :=
  ["require", "module", "exports", "process", "global",
   "setTimeout", "setInterval", "clearTimeout", "clearInterval", "fetch"]

/-- C3, evaluated at the failing input: the wrapper binds exactly the three
names `config`, `ctx`, `console`, yet `setTimeout`, `setInterval`, `fetch`
and `require` all resolve to the ambient module scope — the call site passes
only the three sandbox properties, so the sandbox object's `undefined`
shadows for the dangerous names are dead and never shadow anything. -/
theorem script_sandbox_names_leak :
    wrappedParams = ["config", "ctx", "console"]
    ∧ sandboxArgsPassed = ["config", "ctx", "console"]
    ∧ scriptResolve nodeAmbientScope "setTimeout" = some ScriptBinding.outer
    ∧ scriptResolve nodeAmbientScope "setInterval" = some ScriptBinding.outer
    ∧ scriptResolve nodeAmbientScope "fetch" = some ScriptBinding.outer
    ∧ scriptResolve nodeAmbientScope "require" = some ScriptBinding.outer
    ∧ ((sandboxObjectProps.filter (fun p => !p.2)).all
        (fun p => !(sandboxArgsPassed.contains p.1))) = true := by
  exact ⟨rfl, rfl, by decide, by decide, by decide, by decide, by decide⟩

end FlowProxy
